import Mathlib

/-!
A verification model of the NWScript structural extraction engine
(`src/NWScriptParser.cpp`).

Text is modelled as a list of code units (`List Nat`): the narrow path works
directly on file bytes, the wide path on 16-bit units obtained by
reinterpreting byte pairs little-endian (`sNewFile.assign((wchar_t*)..., size/2)`).
The PCRE2 patterns (`BASEREGEX`, `ENGINESTRUCTREGEX`, `FUNCTIONDECLARATIONREGEX`,
`FUNTIONPARAMETERREGEX`, `CONSTANTREGEX`, the `ROBUSTREGEXDEFINITIONS` variants)
are embedded as deterministic recursive-descent matchers; this is sound because
almost every group in those patterns is atomic (`(?>...)`) or possessive
(`*+`, `++`), so the regex engine itself commits without backtracking; the few
backtracking points (the `(?>const)?` options) are translated as explicit
two-way alternatives.  `PCRE2_MULTILINE` is modelled by tracking, during the
scan, whether the current offset is at the start of the subject or right after
a line feed.
-/

/-! ### Character classes (PCRE2 defaults, no UCP: ASCII-only `\s`, `\w`, `\d`) -/

def isWS (c : Nat) : Bool :=
  c == 32 || c == 9 || c == 10 || c == 11 || c == 12 || c == 13

def isWordChar (c : Nat) : Bool :=
  (decide (65 ≤ c) && decide (c ≤ 90)) || (decide (97 ≤ c) && decide (c ≤ 122)) ||
  (decide (48 ≤ c) && decide (c ≤ 57)) || c == 95

def isDigitChar (c : Nat) : Bool := decide (48 ≤ c) && decide (c ≤ 57)

/-- The character class of the `token` sub-pattern's bare alternative,
`[\w\d.\-]`. -/
def isTokenChar (c : Nat) : Bool := isWordChar c || c == 46 || c == 45

/-- Greedy possessive run of characters satisfying `p` (`(?>X*+)` for a
single-character pattern `X`): returns the consumed run and the rest. -/
def spanP (p : Nat → Bool) : List Nat → List Nat × List Nat
  | [] => ([], [])
  | c :: t =>
    if p c then
      let r := spanP p t
      (c :: r.1, r.2)
    else ([], c :: t)

/-- Literal text match: consume the exact sequence `pat` from the front. -/
def dropLit : List Nat → List Nat → Option (List Nat)
  | [], l => some l
  | _ :: _, [] => none
  | p :: ps, c :: t => if p == c then dropLit ps t else none

/-- Convert a string of ASCII characters to the code-unit list it denotes. -/
def s2l (s : String) : List Nat := s.data.map Char.toNat

/-! ### Ordinal (code-unit lexicographic) comparison on names

`std::basic_string::operator<` compares element by element; this is the
comparator the final `std::sort` in `ParseFile` uses on `sName`. -/

def wLt : List Nat → List Nat → Bool
  | [], [] => false
  | [], _ :: _ => true
  | _ :: _, [] => false
  | a :: as, b :: bs => if a < b then true else if b < a then false else wLt as bs

def wLe : List Nat → List Nat → Bool
  | [], _ => true
  | _ :: _, [] => false
  | a :: as, b :: bs => if a < b then true else if b < a then false else wLe as bs

/-! ### Data model (`NWScriptParser.h` shapes as used by `NWScriptParser.cpp`) -/

inductive MemberID where
  | EngineStruct
  | Function
  | Constant
deriving DecidableEq, Repr

structure ScriptParamMember where
  sType : List Nat := []
  sName : List Nat := []
  sDefaultValue : List Nat := []
deriving DecidableEq, Repr

structure ScriptMember where
  mID : MemberID
  sType : List Nat := []
  sName : List Nat := []
  sValue : List Nat := []
  sParams : List ScriptParamMember := []
deriving DecidableEq, Repr

structure ScriptParseResults where
  Members : List ScriptMember := []
  EngineStructuresCount : Nat := 0
  FunctionsCount : Nat := 0
  ConstantsCount : Nat := 0
deriving DecidableEq, Repr

/-- `str2wstr` converts a captured narrow (byte) string to the plugin's wide
`generic_string`.  On the code-unit values the extractor captures it is
value-preserving, so it is modelled as the identity on code units. -/
def str2wstr (s : List Nat) : List Nat := s

/-! ### The `(?(DEFINE)...)` sub-patterns of `BASEREGEX`

`commentLine` = `(?>\/\/(?>\n|.*))`, `comment` = `(?>\/\*(?>.|\n)*?\*\/)`,
`c` = `(?>\s*+(?>\g<comment>|\g<commentLine>)?\s*+)*+` (possessive whitespace
and comment skipping), `token`, `tokenVector`, `object` (mutually recursive).
All parsers return `(consumed, rest)` with `input = consumed ++ rest`. -/

/-- Body of a block comment after the opening `/*`: `(?>.|\n)*?\*\/` scans
lazily to the first `*/`; an unterminated comment fails. -/
def scanBlockComment : List Nat → Option (List Nat × List Nat)
  | 42 :: 47 :: t => some ([42, 47], t)
  | c :: t =>
    match scanBlockComment t with
    | some (a, r) => some (c :: a, r)
    | none => none
  | [] => none

/-- Tail of a line comment after the leading `//`: `(?>\n|.*)` — a line feed
if one follows immediately, otherwise the rest of the line (the line feed
itself is left for the enclosing whitespace run). -/
def scanLineComment : List Nat → List Nat × List Nat
  | 10 :: t => ([10], t)
  | l => spanP (fun c => !(c == 10)) l

/-- The `c` sub-pattern: a possessive loop of whitespace runs and optional
comments.  The loop stops in front of anything else, including an
unterminated `/*`. -/
def skipC : Nat → List Nat → List Nat × List Nat
  | 0, l => ([], l)
  | fuel + 1, l =>
    let w := spanP isWS l
    match w.2 with
    | 47 :: 42 :: t =>
      match scanBlockComment t with
      | some (a, r2) =>
        let b := skipC fuel r2
        (w.1 ++ 47 :: 42 :: a ++ b.1, b.2)
      | none => (w.1, w.2)
    | 47 :: 47 :: t =>
      let a := scanLineComment t
      let b := skipC fuel a.2
      (w.1 ++ 47 :: 47 :: a.1 ++ b.1, b.2)
    | _ => (w.1, w.2)

/-- `c` with enough fuel for any input: each loop iteration past the first
consumes at least one unit. -/
def skipC' (l : List Nat) : List Nat × List Nat := skipC (l.length + 1) l

/-- Body of a quoted string token after the opening `"`:
`(?:\\.|[^"\\])*"` — an escape may not hide a line feed (`.` does not match
`\n`), a bare backslash or a missing closing quote fails. -/
def scanQuoted : List Nat → Option (List Nat × List Nat)
  | 34 :: t => some ([34], t)
  | 92 :: c :: t =>
    if c == 10 then none
    else
      match scanQuoted t with
      | some (a, r) => some (92 :: c :: a, r)
      | none => none
  | [92] => none
  | c :: t =>
    match scanQuoted t with
    | some (a, r) => some (c :: a, r)
    | none => none
  | [] => none

/-- The `token` sub-pattern: a quoted string or a bare possessive run of
`[\w\d.\-]`.  (Its `(?!(\/\/|\/\*))` lookahead is vacuous here: `/` is
neither a quote nor in the bare character class.) -/
def parseTokenM (l : List Nat) : Option (List Nat × List Nat) :=
  match l with
  | 34 :: t =>
    match scanQuoted t with
    | some (a, r) => some (34 :: a, r)
    | none => none
  | _ =>
    let r := spanP isTokenChar l
    if r.1.isEmpty then none else some (r.1, r.2)

mutual

/-- A grammar value: `\g<token>|\g<tokenVector>|\g<object>` (the alternation
order of the source patterns). -/
def parseValue : Nat → List Nat → Option (List Nat × List Nat)
  | 0, _ => none
  | fuel + 1, l =>
    match parseTokenM l with
    | some r => some r
    | none =>
      match l with
      | 91 :: t =>
        match parseItems fuel t 93 with
        | some (a, r) => some (91 :: a, r)
        | none => none
      | 123 :: t =>
        match parseItems fuel t 125 with
        | some (a, r) => some (123 :: a, r)
        | none => none
      | _ => none

/-- Item loop shared by `tokenVector` and `object`:
`\g<c>(?>(?>\g<token>|\g<tokenVector>|\g<object>)\g<c>,?\g<c>)*?\g<c>\]`
(resp. `\}`) — the lazy loop first tries to close, then reads one more
value followed by an optional comma. -/
def parseItems : Nat → List Nat → Nat → Option (List Nat × List Nat)
  | 0, _, _ => none
  | fuel + 1, l, close =>
    let w := skipC' l
    match w.2 with
    | c :: t =>
      if c == close then some (w.1 ++ [c], t)
      else
        match parseValue fuel w.2 with
        | none => none
        | some (a, r2) =>
          let w2 := skipC' r2
          match w2.2 with
          | 44 :: r4 =>
            let w3 := skipC' r4
            match parseItems fuel w3.2 close with
            | some (b, r6) => some (w.1 ++ a ++ w2.1 ++ 44 :: w3.1 ++ b, r6)
            | none => none
          | _ =>
            match parseItems fuel w2.2 close with
            | some (b, r6) => some (w.1 ++ a ++ w2.1 ++ b, r6)
            | none => none
    | [] => none

end

/-! ### Top-level extraction patterns -/

/-- Atomic `\w+` (all `type`/`name` captures are `(?>\w+)`). -/
def parseWord (l : List Nat) : Option (List Nat × List Nat) :=
  let r := spanP isWordChar l
  if r.1.isEmpty then none else some (r.1, r.2)

/-- `\g<comment>*+`: a possessive run of abutting block comments (the
`comment` define is the block form only). -/
def parseAbutComments : Nat → List Nat → List Nat × List Nat
  | 0, l => ([], l)
  | fuel + 1, l =>
    match l with
    | 47 :: 42 :: t =>
      match scanBlockComment t with
      | some (a, r) =>
        let b := parseAbutComments fuel r
        (47 :: 42 :: a ++ b.1, b.2)
      | none => ([], l)
    | _ => ([], l)

/-- The negative lookahead `(?!(return|if|else|switch))` on the `type`
position of `FUNCTIONDECLARATIONREGEX`: fails whenever the remaining text
begins with one of the four literals. -/
def startsWithKw (l : List Nat) : Bool :=
  (dropLit (s2l "return") l).isSome || (dropLit (s2l "if") l).isSome ||
  (dropLit (s2l "else") l).isSome || (dropLit (s2l "switch") l).isSome

/-- One formal parameter:
`\g<c>(?>const){0,1}\g<c>(?<type>(?>\w+))\g<c>(?<name>(?>\w+))\g<c>(?>=\g<c>(?<defaultValue>(?>\g<token>|\g<tokenVector>|\g<object>)))?\g<c>`
(the shape shared by the `param` define and by `FUNTIONPARAMETERREGEX`, whose
trailing `(?!,)?` is an optional lookahead and hence vacuous).  The greedy
`(?>const){0,1}` is tried with the literal consumed first and retried empty
if the remainder fails; if `=` is present but no value follows, the optional
default group matches zero times and the parameter ends before the `=`. -/
def parseParamCore (l : List Nat) : Option (ScriptParamMember × List Nat) :=
  let w0 := skipC' l
  let attempt : List Nat → Option (ScriptParamMember × List Nat) := fun r =>
    let w1 := skipC' r
    match parseWord w1.2 with
    | none => none
    | some (ty, r3) =>
      let w2 := skipC' r3
      match parseWord w2.2 with
      | none => none
      | some (nm, r5) =>
        let w3 := skipC' r5
        match w3.2 with
        | 61 :: r7 =>
          let w4 := skipC' r7
          match parseValue (w4.2.length + 1) w4.2 with
          | some (dv, r9) =>
            let w5 := skipC' r9
            some ({ sType := ty, sName := nm, sDefaultValue := dv }, w5.2)
          | none => some ({ sType := ty, sName := nm, sDefaultValue := [] }, w3.2)
        | _ => some ({ sType := ty, sName := nm, sDefaultValue := [] }, w3.2)
  match dropLit (s2l "const") w0.2 with
  | some r =>
    match attempt r with
    | some x => some x
    | none => attempt w0.2
  | none => attempt w0.2

/-- The prefix of `l` that ends where `r` starts (all parsers maintain
`input = consumed ++ rest`). -/
def consumedTo (l r : List Nat) : List Nat := l.take (l.length - r.length)

/-- The `parametersString` capture loop:
`(?>(?>\g<param>,(?=\g<param>)|\g<param>(?=\))))*+` — each possessive
iteration reads a parameter followed either by a comma (with another
parameter ahead) or by the closing parenthesis. -/
def parseParamsString : Nat → List Nat → List Nat × List Nat
  | 0, l => ([], l)
  | fuel + 1, l =>
    match parseParamCore l with
    | none => ([], l)
    | some (_, r1) =>
      match r1 with
      | 44 :: r2 =>
        if (parseParamCore r2).isSome then
          let q := parseParamsString fuel r2
          (consumedTo l r2 ++ q.1, q.2)
        else ([], l)
      | 41 :: _ =>
        let q := parseParamsString fuel r1
        (consumedTo l r1 ++ q.1, q.2)
      | _ => ([], l)

/-- `ENGINESTRUCTREGEX` at one offset:
`^\s*+\K(?>#define)\s++(?>ENGINE_STRUCTURE_\d++)\s++(?<name>\w++)`.
Returns the `name` capture and the rest of the subject. -/
def tryEngineStruct (atLS : Bool) (l : List Nat) : Option (List Nat × List Nat) :=
  if !atLS then none
  else
    let w := spanP isWS l
    match dropLit (s2l "#define") w.2 with
    | none => none
    | some r1 =>
      let w2 := spanP isWS r1
      if w2.1.isEmpty then none
      else
        match dropLit (s2l "ENGINE_STRUCTURE_") w2.2 with
        | none => none
        | some r2 =>
          let d := spanP isDigitChar r2
          if d.1.isEmpty then none
          else
            let w3 := spanP isWS d.2
            if w3.1.isEmpty then none
            else
              match parseWord w3.2 with
              | none => none
              | some (nm, rest) => some (nm, rest)

/-- The three captures of one function-declaration match. -/
structure FuncCap where
  fType : List Nat
  fName : List Nat
  parametersString : List Nat
deriving DecidableEq, Repr

/-- `FUNCTIONDECLARATIONREGEX` at one offset:
`^\g<comment>*+\K(?<type>(?>(?!(return|if|else|switch))\w+))\g<c>(?<name>(?>\w+))\g<c>\((?<parametersString>...)\)\g<c>;` -/
def tryFunctionDecl (atLS : Bool) (l : List Nat) : Option (FuncCap × List Nat) :=
  if !atLS then none
  else
    let cm := parseAbutComments (l.length + 1) l
    if startsWithKw cm.2 then none
    else
      match parseWord cm.2 with
      | none => none
      | some (ty, r1) =>
        let w1 := skipC' r1
        match parseWord w1.2 with
        | none => none
        | some (nm, r2) =>
          let w2 := skipC' r2
          match w2.2 with
          | 40 :: r3 =>
            let ps := parseParamsString (r3.length + 1) r3
            match ps.2 with
            | 41 :: r4 =>
              let w3 := skipC' r4
              match w3.2 with
              | 59 :: r5 =>
                some ({ fType := ty, fName := nm, parametersString := ps.1 }, r5)
              | _ => none
            | _ => none
          | _ => none

/-- The three captures of one constant match. -/
structure ConstCap where
  cType : List Nat
  cName : List Nat
  cValue : List Nat
deriving DecidableEq, Repr

/-- `CONSTANTREGEX` at one offset:
`^\g<comment>*+(?>(?>const)?\g<c>^\K(?<type>(?>\w+))\g<c>(?<name>(?>\w+))\g<c>=\g<c>(?<value>\g<token>|\g<tokenVector>|\g<object>))\g<c>;`
The second `^` inside the atomic group requires the `type` capture itself to
begin at a line start; `(?>const)?` backtracks to the empty option only while
the atomic group has not completed. -/
def tryConstant (atLS : Bool) (l : List Nat) : Option (ConstCap × List Nat) :=
  if !atLS then none
  else
    let cm := parseAbutComments (l.length + 1) l
    let core : List Nat → List Nat → Option (ConstCap × List Nat) := fun consumedBefore r =>
      let w1 := skipC' r
      let innerLS :=
        match (consumedBefore ++ w1.1).getLast? with
        | some ch => ch == 10
        | none => atLS
      if !innerLS then none
      else
        match parseWord w1.2 with
        | none => none
        | some (ty, r2) =>
          let w2 := skipC' r2
          match parseWord w2.2 with
          | none => none
          | some (nm, r3) =>
            let w3 := skipC' r3
            match w3.2 with
            | 61 :: r4 =>
              let w4 := skipC' r4
              match parseValue (w4.2.length + 1) w4.2 with
              | none => none
              | some (v, r5) => some ({ cType := ty, cName := nm, cValue := v }, r5)
            | _ => none
    let afterAtomic : Option (ConstCap × List Nat) → Option (ConstCap × List Nat) := fun o =>
      match o with
      | none => none
      | some (cap, r) =>
        let w := skipC' r
        match w.2 with
        | 59 :: r2 => some (cap, r2)
        | _ => none
    match dropLit (s2l "const") cm.2 with
    | some r =>
      match core (cm.1 ++ s2l "const") r with
      | some x => afterAtomic (some x)
      | none => afterAtomic (core cm.1 cm.2)
    | none => afterAtomic (core cm.1 cm.2)

/-! ### Global multiline scans (modifier "gm")

A failed attempt advances one unit; a successful one continues at the end of
the consumed text.  For the three anchored patterns the last consumed unit is
a word character or `;`, never a line feed, so the continuation offset is
never at a line start. -/

def scanAnchored {α : Type} (tryAt : Bool → List Nat → Option (α × List Nat)) :
    Nat → Bool → List Nat → List α
  | 0, _, _ => []
  | fuel + 1, atLS, l =>
    match tryAt atLS l with
    | some (a, rest) => a :: scanAnchored tryAt fuel false rest
    | none =>
      match l with
      | [] => []
      | c :: t => scanAnchored tryAt fuel (c == 10) t

/-- Global scan of the unanchored `FUNTIONPARAMETERREGEX` over a captured
`parametersString`. -/
def scanParamsG : Nat → List Nat → List ScriptParamMember
  | 0, _ => []
  | fuel + 1, l =>
    match parseParamCore l with
    | some (p, rest) => p :: scanParamsG fuel rest
    | none =>
      match l with
      | [] => []
      | _ :: t => scanParamsG fuel t

def engineStructMatches (l : List Nat) : List (List Nat) :=
  scanAnchored tryEngineStruct (l.length + 1) true l

def functionMatches (l : List Nat) : List FuncCap :=
  scanAnchored tryFunctionDecl (l.length + 1) true l

def constantMatches (l : List Nat) : List ConstCap :=
  scanAnchored tryConstant (l.length + 1) true l

def paramMatches (l : List Nat) : List ScriptParamMember :=
  scanParamsG (l.length + 1) l

/-! ### The two extraction passes and `ParseFile` -/

/-- `NWScriptParser::CreateNWScriptStructureA` (PCRE2 narrow variant): three
passes over the byte contents; each match is appended to the caller's
`Members` (never cleared), the three counters are overwritten with this
call's match counts. -/
def CreateNWScriptStructureA (sFileContents : List Nat)
    (outParseResults : ScriptParseResults) : ScriptParseResults :=
  let es := engineStructMatches sFileContents
  let fs := functionMatches sFileContents
  let cs := constantMatches sFileContents
  let esM := es.map fun nm => ({ mID := .EngineStruct, sName := str2wstr nm } : ScriptMember)
  let fsM := fs.map fun f =>
    ({ mID := .Function, sType := str2wstr f.fType, sName := str2wstr f.fName,
       sParams := (paramMatches f.parametersString).map fun p =>
         { sType := str2wstr p.sType, sName := str2wstr p.sName,
           sDefaultValue := str2wstr p.sDefaultValue } } : ScriptMember)
  let csM := cs.map fun c =>
    ({ mID := .Constant, sType := str2wstr c.cType, sName := str2wstr c.cName,
       sValue := str2wstr c.cValue } : ScriptMember)
  { Members := outParseResults.Members ++ esM ++ fsM ++ csM,
    EngineStructuresCount := es.length,
    FunctionsCount := fs.length,
    ConstantsCount := cs.length }

/-- `sNewFile.assign((wchar_t*)sFileContents.c_str(), sFileContents.size() / 2)`:
the raw bytes reinterpreted as little-endian 16-bit units, any trailing odd
byte dropped, no re-encoding. -/
def decodeWide : List Nat → List Nat
  | b0 :: b1 :: t => (b0 + 256 * b1) :: decodeWide t
  | _ => []

/-- `NWScriptParser::CreateNWScriptStructureW` (PCRE2 wide variant): the same
three passes, compiled from the same pattern strings, run on the
reinterpreted wide units; captures are used without conversion. -/
def CreateNWScriptStructureW (sFileContents : List Nat)
    (outParseResults : ScriptParseResults) : ScriptParseResults :=
  let sNewFile := decodeWide sFileContents
  let es := engineStructMatches sNewFile
  let fs := functionMatches sNewFile
  let cs := constantMatches sNewFile
  let esM := es.map fun nm => ({ mID := .EngineStruct, sName := nm } : ScriptMember)
  let fsM := fs.map fun f =>
    ({ mID := .Function, sType := f.fType, sName := f.fName,
       sParams := (paramMatches f.parametersString).map fun p =>
         { sType := p.sType, sName := p.sName,
           sDefaultValue := p.sDefaultValue } } : ScriptMember)
  let csM := cs.map fun c =>
    ({ mID := .Constant, sType := c.cType, sName := c.cName,
       sValue := c.cValue } : ScriptMember)
  { Members := outParseResults.Members ++ esM ++ fsM ++ csM,
    EngineStructuresCount := es.length,
    FunctionsCount := fs.length,
    ConstantsCount := cs.length }

/-- Modelled from the spec: the Encoding Detector's verdict set (spec §4.1:
narrow, narrow-with-cookie, the four wide classes, and Unknown).  The
detector itself (`Utf8_16_Read::determineEncoding`, file `Utf8_16.h`) is not
under `src/`; `ParseFile` consumes only its verdict, so the verdict is a
parameter of the model.  `Narrow` covers the `uni7Bit`/`uni8Bit` verdicts,
and `Unknown` the verdicts outside the seven the dispatch tests (the source
itself notes `encoding == -1`, "Cannot determine file encoding"). -/
inductive Encoding where
  | Narrow
  | NarrowWithCookie
  | WideLE
  | WideBE
  | WideLENoMark
  | WideBENoMark
  | Unknown
deriving DecidableEq, Repr

/-- `encoding == uni8Bit || encoding == uni7Bit || encoding == uniCookie`. -/
def isNarrowVerdict : Encoding → Bool
  | .Narrow | .NarrowWithCookie => true
  | _ => false

/-- `encoding == uni16BE || encoding == uni16LE || encoding == uni16BE_NoBOM || encoding == uni16LE_NoBOM`. -/
def isWideVerdict : Encoding → Bool
  | .WideLE | .WideBE | .WideLENoMark | .WideBENoMark => true
  | _ => false

/-- The deterministic part of `NWScriptParser::ParseFile` after the file read:
`readOk` is the value `FileToBuffer` returned (it is assigned to `success`
and never read again; on failure `sFileContents` stays empty), the verdict
dispatches to the narrow or wide pass, and an unlisted verdict runs neither. -/
def parseFilePre (readOk : Bool) (contents : List Nat) (encoding : Encoding)
    (outParseResults : ScriptParseResults) : ScriptParseResults :=
  let sFileContents := if readOk then contents else []
  if isNarrowVerdict encoding then CreateNWScriptStructureA sFileContents outParseResults
  else if isWideVerdict encoding then CreateNWScriptStructureW sFileContents outParseResults
  else outParseResults

/-- Adjacent-pair postcondition of `std::sort` with comparator
`a.sName < b.sName`: the later element never compares below the earlier. -/
def sortedAdj (a b : ScriptMember) : Prop := wLt b.sName a.sName = false

/-- Executable form of the `std::sort` postcondition over a whole sequence. -/
def isSortedB : List ScriptMember → Bool
  | [] => true
  | [_] => true
  | a :: b :: t => !(wLt b.sName a.sName) && isSortedB (b :: t)

/-- `NWScriptParser::ParseFile` from the `FileToBuffer` call on, as a
relation from inputs to the returned flag and result.  The final
`std::sort(outParseResults.Members.begin(), ..., a.sName < b.sName)` is
modelled by its contract — the output `Members` is *some* permutation of the
pre-sort sequence whose adjacent names never descend; `std::sort` promises
nothing about the order of tied elements.  The function then returns `true`
unconditionally (the `success` flag is never consulted). -/
def ParseFile (readOk : Bool) (contents : List Nat) (encoding : Encoding)
    (outParseResults : ScriptParseResults) (ret : Bool)
    (out : ScriptParseResults) : Prop :=
  let pre := parseFilePre readOk contents encoding outParseResults
  ret = true ∧
  out.Members.Perm pre.Members ∧
  isSortedB out.Members = true ∧
  out.EngineStructuresCount = pre.EngineStructuresCount ∧
  out.FunctionsCount = pre.FunctionsCount ∧
  out.ConstantsCount = pre.ConstantsCount

/-! ### Structural facts about the assembled result -/

/-- Number of records of one kind in a member sequence. -/
def countKind (k : MemberID) (l : List ScriptMember) : Nat :=
  l.countP (fun m => m.mID == k)

/-! ### Claims about `ParseFile` as a whole -/

def constRecA : ScriptMember :=
  { mID := .Constant, sType := s2l "int", sName := s2l "A", sValue := s2l "1" }

def fnRecB : ScriptMember := { mID := .Function, sType := s2l "int", sName := s2l "B" }

def fnRecNAME : ScriptMember :=
  { mID := .Function, sType := s2l "int", sName := s2l "NAME" }

def constRecNAME : ScriptMember :=
  { mID := .Constant, sType := s2l "int", sName := s2l "NAME", sValue := s2l "1" }

def strayFnRec : ScriptMember := { mID := .Function, sName := s2l "stray" }

def fnRecF : ScriptMember := { mID := .Function, sType := s2l "int", sName := s2l "f" }

def strayConstRec : ScriptMember := { mID := .Constant, sName := s2l "stray" }

/-! ### Rendered grammar values

To quantify over nested default-value literals, grammar values are given an
inductive syntax with a canonical rendering; the lemmas below show the value
sub-patterns consume exactly a rendered value. -/

inductive GValue where
  | tok : List Nat → GValue
  | vec : List GValue → GValue
  | obj : List GValue → GValue

mutual

/-- Canonical text of a value: bare token, `[a,b,...]`, or `{a,b,...}`. -/
def renderV : GValue → List Nat
  | .tok s => s
  | .vec l => 91 :: renderL l ++ [93]
  | .obj l => 123 :: renderL l ++ [125]

def renderL : List GValue → List Nat
  | [] => []
  | [v] => renderV v
  | v :: t => renderV v ++ 44 :: renderL t

end

mutual

/-- Well-formedness: bare tokens are nonempty runs of token characters. -/
def wfV : GValue → Bool
  | .tok s => !s.isEmpty && s.all isTokenChar
  | .vec l => wfL l
  | .obj l => wfL l

def wfL : List GValue → Bool
  | [] => true
  | v :: t => wfV v && wfL t

end

mutual

/-- Fuel sufficient for `parseValue` to consume a rendered value. -/
def needV : GValue → Nat
  | .tok _ => 1
  | .vec l => needL l + 1
  | .obj l => needL l + 1

def needL : List GValue → Nat
  | [] => 1
  | v :: t => 1 + max (needV v) (needL t)

end

/-- A value's text is never followed by more of the same token: the next
unit is absent or not a token character. -/
def stopOk : List Nat → Bool
  | [] => true
  | c :: _ => !isTokenChar c

/-! ### Behaviour of the low-level scanners on decomposed input -/

/-- What it means for `l` not to begin with a character satisfying `p`. -/
def headNot (p : Nat → Bool) : List Nat → Prop
  | [] => True
  | c :: _ => p c = false

/-- Rendered default value of a parameter: empty when there is none. -/
def renderDV : Option GValue → List Nat
  | none => []
  | some v => renderV v

/-- Canonical text of one formal parameter, `type name` or
`type name = value`. -/
def renderParam (ty nm : List Nat) (d : Option GValue) : List Nat :=
  ty ++ 32 :: nm ++ (match d with | none => [] | some v => 32 :: 61 :: 32 :: renderV v)

/-- The extracted record of one rendered parameter. -/
def paramRecordOf (p : List Nat × List Nat × Option GValue) : ScriptParamMember :=
  { sType := p.1, sName := p.2.1, sDefaultValue := renderDV p.2.2 }

/-- Canonical text of a comma-separated formal parameter list. -/
def renderParams : List (List Nat × List Nat × Option GValue) → List Nat
  | [] => []
  | [p] => renderParam p.1 p.2.1 p.2.2
  | p :: ps => renderParam p.1 p.2.1 p.2.2 ++ 44 :: renderParams ps

/-- A parameter triple the lemmas cover: nonempty word-run type and name,
the type not beginning with the letters `const`, a well-formed default. -/
def wfParamB (p : List Nat × List Nat × Option GValue) : Bool :=
  !p.1.isEmpty && p.1.all isWordChar && !p.2.1.isEmpty && p.2.1.all isWordChar &&
  (match p.2.2 with | none => true | some v => wfV v) &&
  (dropLit (s2l "const") (p.1 ++ [32])).isNone

/-- UTF-16 little-endian bytes of a sequence of 8-bit units. -/
def utf16le : List Nat → List Nat
  | [] => []
  | b :: t => b :: 0 :: utf16le t

/-! ### Properties -/

theorem wLt_false_iff_wLe : ∀ a b : List Nat, wLt b a = false ↔ wLe a b = true := by
  intro a
  induction a with
  | nil => intro b; cases b <;> simp [wLt, wLe]
  | cons x xs ih =>
    intro b
    cases b with
    | nil => simp [wLt, wLe]
    | cons y ys =>
      by_cases h1 : x < y
      · have h2 : ¬ y < x := by omega
        simp [wLt, wLe, h1, h2]
      · by_cases h2 : y < x
        · simp [wLt, wLe, h1, h2]
        · simp [wLt, wLe, h1, h2, ih ys]

theorem wLe_trans : ∀ a b c : List Nat,
    wLe a b = true → wLe b c = true → wLe a c = true := by
  intro a
  induction a with
  | nil => intro b c _ _; simp [wLe]
  | cons x xs ih =>
    intro b c hab hbc
    cases b with
    | nil => simp [wLe] at hab
    | cons y ys =>
      cases c with
      | nil => simp [wLe] at hbc
      | cons z zs =>
        by_cases hxy : x < y
        · by_cases hyz : y < z
          · have : x < z := by omega
            simp [wLe, this]
          · by_cases hzy : z < y
            · simp [wLe, hyz, hzy] at hbc
            · have hyz' : y = z := by omega
              subst hyz'
              simp [wLe, hxy]
        · by_cases hyx : y < x
          · simp [wLe, hxy, hyx] at hab
          · have hxy' : x = y := by omega
            subst hxy'
            by_cases hyz : x < z
            · simp [wLe, hyz]
            · by_cases hzy : z < x
              · simp [wLe, hyz, hzy] at hbc
              · have : x = z := by omega
                subst this
                simp [wLe, hxy] at hab hbc ⊢
                exact ih ys zs hab hbc

theorem wLe_antisymm : ∀ a b : List Nat,
    wLe a b = true → wLe b a = true → a = b := by
  intro a
  induction a with
  | nil => intro b _ hba; cases b with
    | nil => rfl
    | cons y ys => simp [wLe] at hba
  | cons x xs ih =>
    intro b hab hba
    cases b with
    | nil => simp [wLe] at hab
    | cons y ys =>
      by_cases hxy : x < y
      · have : ¬ y < x := by omega
        simp [wLe, hxy, this] at hba
      · by_cases hyx : y < x
        · simp [wLe, hxy, hyx] at hab
        · have hxy' : x = y := by omega
          subst hxy'
          simp [wLe, hxy] at hab hba
          rw [ih ys hab hba]

theorem isSortedB_iff_chain' :
    ∀ l : List ScriptMember, isSortedB l = true ↔ List.Chain' sortedAdj l := by
  intro l
  match l with
  | [] => simp [isSortedB]
  | [a] => simp [isSortedB]
  | a :: b :: t =>
    rw [List.chain'_cons]
    constructor
    · intro h
      simp only [isSortedB, Bool.and_eq_true, Bool.not_eq_true'] at h
      exact ⟨h.1, (isSortedB_iff_chain' (b :: t)).mp h.2⟩
    · intro h
      simp only [isSortedB, Bool.and_eq_true, Bool.not_eq_true']
      exact ⟨h.1, (isSortedB_iff_chain' (b :: t)).mpr h.2⟩

theorem countKind_append (k : MemberID) (a b : List ScriptMember) :
    countKind k (a ++ b) = countKind k a + countKind k b :=
  List.countP_append _ a b

theorem createA_countKind (s : List Nat) (r : ScriptParseResults) :
    countKind .EngineStruct (CreateNWScriptStructureA s r).Members
      = countKind .EngineStruct r.Members
        + (CreateNWScriptStructureA s r).EngineStructuresCount ∧
    countKind .Function (CreateNWScriptStructureA s r).Members
      = countKind .Function r.Members + (CreateNWScriptStructureA s r).FunctionsCount ∧
    countKind .Constant (CreateNWScriptStructureA s r).Members
      = countKind .Constant r.Members + (CreateNWScriptStructureA s r).ConstantsCount := by
  refine ⟨?_, ?_, ?_⟩ <;>
    simp [CreateNWScriptStructureA, countKind, List.countP_append, List.countP_map,
      Function.comp_def, List.countP_true, List.countP_false,
      show (MemberID.EngineStruct == MemberID.Function) = false from rfl,
      show (MemberID.EngineStruct == MemberID.Constant) = false from rfl,
      show (MemberID.Function == MemberID.EngineStruct) = false from rfl,
      show (MemberID.Function == MemberID.Constant) = false from rfl,
      show (MemberID.Constant == MemberID.EngineStruct) = false from rfl,
      show (MemberID.Constant == MemberID.Function) = false from rfl]

theorem createW_countKind (s : List Nat) (r : ScriptParseResults) :
    countKind .EngineStruct (CreateNWScriptStructureW s r).Members
      = countKind .EngineStruct r.Members
        + (CreateNWScriptStructureW s r).EngineStructuresCount ∧
    countKind .Function (CreateNWScriptStructureW s r).Members
      = countKind .Function r.Members + (CreateNWScriptStructureW s r).FunctionsCount ∧
    countKind .Constant (CreateNWScriptStructureW s r).Members
      = countKind .Constant r.Members + (CreateNWScriptStructureW s r).ConstantsCount := by
  refine ⟨?_, ?_, ?_⟩ <;>
    simp [CreateNWScriptStructureW, countKind, List.countP_append, List.countP_map,
      Function.comp_def, List.countP_true, List.countP_false,
      show (MemberID.EngineStruct == MemberID.Function) = false from rfl,
      show (MemberID.EngineStruct == MemberID.Constant) = false from rfl,
      show (MemberID.Function == MemberID.EngineStruct) = false from rfl,
      show (MemberID.Function == MemberID.Constant) = false from rfl,
      show (MemberID.Constant == MemberID.EngineStruct) = false from rfl,
      show (MemberID.Constant == MemberID.Function) = false from rfl]

theorem createA_members_kept (s : List Nat) (r : ScriptParseResults) (m : ScriptMember)
    (hm : m ∈ r.Members) : m ∈ (CreateNWScriptStructureA s r).Members := by
  simp only [CreateNWScriptStructureA, List.append_assoc, List.mem_append]
  exact Or.inl hm

theorem createW_members_kept (s : List Nat) (r : ScriptParseResults) (m : ScriptMember)
    (hm : m ∈ r.Members) : m ∈ (CreateNWScriptStructureW s r).Members := by
  simp only [CreateNWScriptStructureW, List.append_assoc, List.mem_append]
  exact Or.inl hm

theorem parseFilePre_members_kept (readOk : Bool) (contents : List Nat) (enc : Encoding)
    (init : ScriptParseResults) (m : ScriptMember) (hm : m ∈ init.Members) :
    m ∈ (parseFilePre readOk contents enc init).Members := by
  unfold parseFilePre
  by_cases h1 : isNarrowVerdict enc = true
  · simpa [h1] using createA_members_kept _ init m hm
  · by_cases h2 : isWideVerdict enc = true
    · simpa [h1, h2] using createW_members_kept _ init m hm
    · simpa [h1, h2] using hm

theorem wide_not_narrow (enc : Encoding) :
    isWideVerdict enc = true → isNarrowVerdict enc = false := by
  cases enc <;> simp [isNarrowVerdict, isWideVerdict]

theorem parseFilePre_counts (readOk : Bool) (contents : List Nat) (enc : Encoding) :
    countKind .EngineStruct (parseFilePre readOk contents enc {}).Members
      = (parseFilePre readOk contents enc {}).EngineStructuresCount ∧
    countKind .Function (parseFilePre readOk contents enc {}).Members
      = (parseFilePre readOk contents enc {}).FunctionsCount ∧
    countKind .Constant (parseFilePre readOk contents enc {}).Members
      = (parseFilePre readOk contents enc {}).ConstantsCount := by
  unfold parseFilePre
  by_cases h1 : isNarrowVerdict enc = true
  · simpa [h1, countKind] using createA_countKind (if readOk then contents else []) {}
  · by_cases h2 : isWideVerdict enc = true
    · simpa [h1, h2, countKind] using createW_countKind (if readOk then contents else []) {}
    · simp [h1, h2, countKind]

/-- Claim C1: the spec says an unobtainable byte buffer is surfaced to the
caller as a hard failure with extraction not running.  The code evaluated at
the failing input: when `FileToBuffer` reports failure (`readOk = false`, the
buffer left empty), `ParseFile` nevertheless runs to completion and returns
`true` with an empty extraction — the `success` flag is assigned on line 120
of `NWScriptParser.cpp` and never read. -/
theorem claim1_read_failure_still_succeeds :
    ParseFile false (s2l "int f();") Encoding.Narrow {} true {} :=
  ⟨rfl, by decide, by decide, by decide, by decide, by decide⟩

/-- Claim C2, counterexample: for a buffer holding one constant declaration
and an unclassifiable detector verdict, a permitted run of `ParseFile`
returns an empty member list even though the narrow pass on the same buffer
extracts a record — so extraction did not run, contradicting the claimed
narrow-by-default behaviour. -/
theorem claim2_counterexample :
    ParseFile true (s2l "int X = 5;") Encoding.Unknown {} true {} ∧
    (CreateNWScriptStructureA (s2l "int X = 5;") {}).Members ≠ [] := by
  refine ⟨⟨rfl, by decide, by decide, by decide, by decide, by decide⟩, by decide⟩

/-- Claim C2, amended: when the Encoding Detector's verdict is none of the
narrow or wide classes, `ParseFile` runs neither extraction pass: the call
still reports success, the member list is only permuted (sorted), and the
counters keep the values the caller supplied. -/
theorem claim2_amended_unknown_verdict_skips_extraction
    (contents : List Nat) (init : ScriptParseResults) (ret : Bool)
    (out : ScriptParseResults)
    (h : ParseFile true contents Encoding.Unknown init ret out) :
    ret = true ∧ out.Members.Perm init.Members ∧
    out.EngineStructuresCount = init.EngineStructuresCount ∧
    out.FunctionsCount = init.FunctionsCount ∧
    out.ConstantsCount = init.ConstantsCount := by
  obtain ⟨h1, h2, _, h4, h5, h6⟩ := h
  exact ⟨h1, h2, h4, h5, h6⟩

theorem claim2_witness :
    true = true ∧
    (({} : ScriptParseResults).Members.Perm ({} : ScriptParseResults).Members) ∧
    ({} : ScriptParseResults).EngineStructuresCount
      = ({} : ScriptParseResults).EngineStructuresCount ∧
    ({} : ScriptParseResults).FunctionsCount = ({} : ScriptParseResults).FunctionsCount ∧
    ({} : ScriptParseResults).ConstantsCount = ({} : ScriptParseResults).ConstantsCount :=
  claim2_amended_unknown_verdict_skips_extraction (s2l "int X = 5;") {} true {}
    ⟨rfl, by decide, by decide, by decide, by decide, by decide⟩

/-- Claim C3: for every input, the member sequence `ParseFile` hands back is
sorted ascending by `sName` under ordinal comparison — any two adjacent
records `a, b` satisfy `a.sName <= b.sName`. -/
theorem claim3_members_sorted_by_name (readOk : Bool) (contents : List Nat)
    (enc : Encoding) (init : ScriptParseResults) (ret : Bool)
    (out : ScriptParseResults) (h : ParseFile readOk contents enc init ret out) :
    List.Chain' (fun a b : ScriptMember => wLe a.sName b.sName = true) out.Members := by
  obtain ⟨-, -, hs, -, -, -⟩ := h
  exact ((isSortedB_iff_chain' _).mp hs).imp
    (fun a b hab => (wLt_false_iff_wLe a.sName b.sName).mp hab)

theorem claim3_witness :
    List.Chain' (fun a b : ScriptMember => wLe a.sName b.sName = true)
      (ScriptParseResults.mk [constRecA, fnRecB] 0 1 1).Members :=
  claim3_members_sorted_by_name true (s2l "int B();\nint A = 1;") Encoding.Narrow {} true
    (ScriptParseResults.mk [constRecA, fnRecB] 0 1 1)
    ⟨rfl, by decide, by decide, by decide, by decide, by decide⟩

/-- Claim C4, counterexample: on a buffer declaring `NAME` first as a
function and then as a constant, the pre-sort sequence discovers the
function record first, yet the run of `ParseFile` that places the constant
record first is also permitted — `std::sort` guarantees only a sorted
permutation, not stability, so the claimed discovery-order tie-break does
not hold of the code. -/
theorem claim4_counterexample :
    (parseFilePre true (s2l "int NAME();\nint NAME = 1;") Encoding.Narrow {}).Members
      = [fnRecNAME, constRecNAME] ∧
    ParseFile true (s2l "int NAME();\nint NAME = 1;") Encoding.Narrow {} true
      (ScriptParseResults.mk [constRecNAME, fnRecNAME] 0 1 1) ∧
    fnRecNAME.mID = MemberID.Function ∧ constRecNAME.mID = MemberID.Constant ∧
    fnRecNAME.sName = constRecNAME.sName := by
  exact ⟨by decide, ⟨rfl, by decide, by decide, by decide, by decide, by decide⟩,
    by decide, by decide, by decide⟩

/-- Claim C4, amended: after the final sort, records sharing a name are
adjacent (everything lying between two records of equal name has that same
name), and the member sequence is a permutation of the discovery-order
sequence (engine-structure pass, then function pass, then constant pass);
but the relative order of records with equal names is not specified —
`std::sort` is not a stable sort, so a function and a constant sharing a
name appear adjacent post-sort in an arbitrary order. -/
theorem claim4_amended_equal_names_adjacent (readOk : Bool) (contents : List Nat)
    (enc : Encoding) (init : ScriptParseResults) (ret : Bool)
    (out : ScriptParseResults) (h : ParseFile readOk contents enc init ret out)
    (l1 l2 l3 : List ScriptMember) (a b : ScriptMember)
    (hsplit : out.Members = l1 ++ a :: (l2 ++ b :: l3)) (hname : a.sName = b.sName) :
    (∀ x ∈ l2, x.sName = a.sName) ∧
    out.Members.Perm (parseFilePre readOk contents enc init).Members := by
  obtain ⟨-, hperm, hs, -, -, -⟩ := h
  refine ⟨?_, hperm⟩
  haveI : IsTrans ScriptMember sortedAdj := by
    constructor
    intro x y z hxy hyz
    have h1 : wLe x.sName y.sName = true := (wLt_false_iff_wLe _ _).mp hxy
    have h2 : wLe y.sName z.sName = true := (wLt_false_iff_wLe _ _).mp hyz
    exact (wLt_false_iff_wLe _ _).mpr (wLe_trans _ _ _ h1 h2)
  have hp : List.Pairwise sortedAdj out.Members :=
    List.chain'_iff_pairwise.mp ((isSortedB_iff_chain' _).mp hs)
  rw [hsplit] at hp
  have hp1 := (List.pairwise_append.mp hp).2.1
  rw [List.pairwise_cons] at hp1
  obtain ⟨ha, htail⟩ := hp1
  intro x hx
  have hax : sortedAdj a x := ha x (List.mem_append_left _ hx)
  have hxb : sortedAdj x b :=
    (List.pairwise_append.mp htail).2.2 x hx b (List.mem_cons_self b l3)
  have h1 : wLe a.sName x.sName = true := (wLt_false_iff_wLe _ _).mp hax
  have h2 : wLe x.sName b.sName = true := (wLt_false_iff_wLe _ _).mp hxb
  rw [← hname] at h2
  exact (wLe_antisymm _ _ h1 h2).symm

theorem claim4_witness :
    (∀ x ∈ ([] : List ScriptMember), x.sName = constRecNAME.sName) ∧
    (ScriptParseResults.mk [constRecNAME, fnRecNAME] 0 1 1).Members.Perm
      (parseFilePre true (s2l "int NAME();\nint NAME = 1;") Encoding.Narrow {}).Members :=
  claim4_amended_equal_names_adjacent true (s2l "int NAME();\nint NAME = 1;")
    Encoding.Narrow {} true (ScriptParseResults.mk [constRecNAME, fnRecNAME] 0 1 1)
    ⟨rfl, by decide, by decide, by decide, by decide, by decide⟩
    [] [] [] constRecNAME fnRecNAME rfl (by decide)

/-- Claim C5, counterexample: `ParseFile` never clears the member list the
caller supplies, while the counters are overwritten with only this call's
match counts — so with a pre-populated result object and an empty buffer the
`FunctionsCount` counter is 0 although one Function record is present in
`Members`. -/
theorem claim5_counterexample :
    ParseFile true [] Encoding.Narrow (ScriptParseResults.mk [strayFnRec] 0 0 0) true
      (ScriptParseResults.mk [strayFnRec] 0 0 0) ∧
    (ScriptParseResults.mk [strayFnRec] 0 0 0).FunctionsCount = 0 ∧
    countKind .Function (ScriptParseResults.mk [strayFnRec] 0 0 0).Members = 1 := by
  exact ⟨⟨rfl, by decide, by decide, by decide, by decide, by decide⟩, by decide, by decide⟩

/-- Claim C5, amended: for every call whose supplied result object is
initially empty, each of the three per-kind counters equals the number of
records of that kind in `Members` after the call (so an input with zero
declarations of a kind leaves that counter 0 with no such record).  For a
pre-populated result object the equality fails (see the counterexample). -/
theorem claim5_amended_counters_match_for_fresh_result (readOk : Bool)
    (contents : List Nat) (enc : Encoding) (ret : Bool) (out : ScriptParseResults)
    (h : ParseFile readOk contents enc {} ret out) :
    out.EngineStructuresCount = countKind .EngineStruct out.Members ∧
    out.FunctionsCount = countKind .Function out.Members ∧
    out.ConstantsCount = countKind .Constant out.Members := by
  obtain ⟨-, hperm, -, he, hf, hc⟩ := h
  obtain ⟨pe, pf, pc⟩ := parseFilePre_counts readOk contents enc
  have hcnt : ∀ k, countKind k out.Members
      = countKind k (parseFilePre readOk contents enc {}).Members :=
    fun k => hperm.countP_eq _
  exact ⟨by rw [he, hcnt, pe], by rw [hf, hcnt, pf], by rw [hc, hcnt, pc]⟩

theorem claim5_witness :
    (ScriptParseResults.mk [fnRecF] 0 1 0).EngineStructuresCount
      = countKind .EngineStruct (ScriptParseResults.mk [fnRecF] 0 1 0).Members ∧
    (ScriptParseResults.mk [fnRecF] 0 1 0).FunctionsCount
      = countKind .Function (ScriptParseResults.mk [fnRecF] 0 1 0).Members ∧
    (ScriptParseResults.mk [fnRecF] 0 1 0).ConstantsCount
      = countKind .Constant (ScriptParseResults.mk [fnRecF] 0 1 0).Members :=
  claim5_amended_counters_match_for_fresh_result true (s2l "int f();") Encoding.Narrow
    true (ScriptParseResults.mk [fnRecF] 0 1 0)
    ⟨rfl, by decide, by decide, by decide, by decide, by decide⟩

/-- Claim C10, counterexample: the claim asserts the counters are always
overwritten with this call's extraction counts, but when the verdict is
unclassifiable neither pass runs and the counters keep the caller's stale
values — here `FunctionsCount` stays 5 although this call extracted nothing. -/
theorem claim10_counterexample :
    ParseFile true [] Encoding.Unknown (ScriptParseResults.mk [strayConstRec] 4 5 6) true
      (ScriptParseResults.mk [strayConstRec] 4 5 6) ∧
    (functionMatches []).length = 0 ∧
    (ScriptParseResults.mk [strayConstRec] 4 5 6).FunctionsCount = 5 := by
  exact ⟨⟨rfl, by decide, by decide, by decide, by decide, by decide⟩, by decide, by decide⟩

/-- Claim C10, amended: `ParseFile` appends to the caller's member list
without clearing it — every pre-existing record is still present after the
call — and whenever a narrow or wide verdict actually runs an extraction
pass, the three counters are overwritten with only this call's match counts;
with an unclassified verdict the counters are left untouched. -/
theorem claim10_amended_appends_and_overwrites_counters (readOk : Bool)
    (contents : List Nat) (enc : Encoding) (init : ScriptParseResults) (ret : Bool)
    (out : ScriptParseResults) (h : ParseFile readOk contents enc init ret out) :
    (∀ m ∈ init.Members, m ∈ out.Members) ∧
    (isNarrowVerdict enc = true →
      out.EngineStructuresCount
        = (engineStructMatches (if readOk then contents else [])).length ∧
      out.FunctionsCount = (functionMatches (if readOk then contents else [])).length ∧
      out.ConstantsCount = (constantMatches (if readOk then contents else [])).length) ∧
    (isWideVerdict enc = true →
      out.EngineStructuresCount
        = (engineStructMatches (decodeWide (if readOk then contents else []))).length ∧
      out.FunctionsCount
        = (functionMatches (decodeWide (if readOk then contents else []))).length ∧
      out.ConstantsCount
        = (constantMatches (decodeWide (if readOk then contents else []))).length) := by
  obtain ⟨-, hperm, -, he, hf, hc⟩ := h
  refine ⟨fun m hm => hperm.mem_iff.mpr (parseFilePre_members_kept _ _ _ _ m hm), ?_, ?_⟩
  · intro hN
    unfold parseFilePre at he hf hc
    rw [if_pos hN] at he hf hc
    exact ⟨he, hf, hc⟩
  · intro hW
    unfold parseFilePre at he hf hc
    rw [if_neg (by simp [wide_not_narrow enc hW]), if_pos hW] at he hf hc
    exact ⟨he, hf, hc⟩

theorem claim10_witness :
    (∀ m ∈ (ScriptParseResults.mk [strayFnRec] 0 0 0).Members,
      m ∈ (ScriptParseResults.mk [fnRecF, strayFnRec] 0 1 0).Members) ∧
    (isNarrowVerdict Encoding.Narrow = true →
      (ScriptParseResults.mk [fnRecF, strayFnRec] 0 1 0).EngineStructuresCount
        = (engineStructMatches (if true then s2l "int f();" else [])).length ∧
      (ScriptParseResults.mk [fnRecF, strayFnRec] 0 1 0).FunctionsCount
        = (functionMatches (if true then s2l "int f();" else [])).length ∧
      (ScriptParseResults.mk [fnRecF, strayFnRec] 0 1 0).ConstantsCount
        = (constantMatches (if true then s2l "int f();" else [])).length) ∧
    (isWideVerdict Encoding.Narrow = true →
      (ScriptParseResults.mk [fnRecF, strayFnRec] 0 1 0).EngineStructuresCount
        = (engineStructMatches (decodeWide (if true then s2l "int f();" else []))).length ∧
      (ScriptParseResults.mk [fnRecF, strayFnRec] 0 1 0).FunctionsCount
        = (functionMatches (decodeWide (if true then s2l "int f();" else []))).length ∧
      (ScriptParseResults.mk [fnRecF, strayFnRec] 0 1 0).ConstantsCount
        = (constantMatches (decodeWide (if true then s2l "int f();" else []))).length) :=
  claim10_amended_appends_and_overwrites_counters true (s2l "int f();") Encoding.Narrow
    (ScriptParseResults.mk [strayFnRec] 0 0 0) true
    (ScriptParseResults.mk [fnRecF, strayFnRec] 0 1 0)
    ⟨rfl, by decide, by decide, by decide, by decide, by decide⟩

/-! ### Character-class facts -/

theorem isWordChar_facts (c : Nat) (h : isWordChar c = true) :
    isWS c = false ∧ isTokenChar c = true ∧ c ≠ 47 ∧ c ≠ 34 ∧ c ≠ 44 ∧ c ≠ 40 ∧
    c ≠ 41 ∧ c ≠ 59 ∧ c ≠ 61 ∧ c ≠ 10 := by
  simp only [isWordChar, Bool.or_eq_true, Bool.and_eq_true, decide_eq_true_eq,
    beq_iff_eq] at h
  refine ⟨?_, ?_, ?_, ?_, ?_, ?_, ?_, ?_, ?_, ?_⟩
  · simp only [isWS, Bool.or_eq_false_iff, beq_eq_false_iff_ne]
    omega
  · simp only [isTokenChar, isWordChar, Bool.or_eq_true, Bool.and_eq_true,
      decide_eq_true_eq, beq_iff_eq]
    tauto
  all_goals omega

theorem isTokenChar_facts (c : Nat) (h : isTokenChar c = true) :
    isWS c = false ∧ c ≠ 47 ∧ c ≠ 34 ∧ c ≠ 44 ∧ c ≠ 40 ∧ c ≠ 41 ∧ c ≠ 59 ∧
    c ≠ 61 ∧ c ≠ 91 ∧ c ≠ 93 ∧ c ≠ 123 ∧ c ≠ 125 ∧ c ≠ 10 := by
  simp only [isTokenChar, isWordChar, Bool.or_eq_true, Bool.and_eq_true,
    decide_eq_true_eq, beq_iff_eq] at h
  refine ⟨?_, ?_, ?_, ?_, ?_, ?_, ?_, ?_, ?_, ?_, ?_, ?_, ?_⟩
  · simp only [isWS, Bool.or_eq_false_iff, beq_eq_false_iff_ne]
    omega
  all_goals omega

theorem spanP_exact (p : Nat → Bool) :
    ∀ a r, (∀ c ∈ a, p c = true) → headNot p r → spanP p (a ++ r) = (a, r) := by
  intro a
  induction a with
  | nil =>
    intro r _ hr
    cases r with
    | nil => rfl
    | cons c t =>
      have hc : p c = false := hr
      simp [spanP, hc]
  | cons x xs ih =>
    intro r ha hr
    have hx : p x = true := ha x (List.mem_cons_self x xs)
    simp only [List.cons_append, spanP, hx, if_true]
    rw [show xs.append r = xs ++ r from rfl,
      ih r (fun c hc => ha c (List.mem_cons_of_mem x hc)) hr]

theorem spanP_nil (p : Nat → Bool) (l : List Nat) (h : headNot p l) :
    spanP p l = ([], l) := spanP_exact p [] l (by simp) h

/-- `c` consumes exactly a leading whitespace run when what follows starts
with neither whitespace nor `/`. -/
theorem skipC'_ws (w l : List Nat) (hw : ∀ c ∈ w, isWS c = true)
    (hl : headNot isWS l) (hl47 : ∀ c t, l = c :: t → c ≠ 47) :
    skipC' (w ++ l) = (w, l) := by
  have h1 : spanP isWS (w ++ l) = (w, l) := spanP_exact isWS w l hw hl
  unfold skipC' skipC
  simp only [h1]
  split
  · next x t => exact absurd rfl (hl47 47 (42 :: t) rfl)
  · next x t => exact absurd rfl (hl47 47 (47 :: t) rfl)
  · rfl

/-- `c` is the identity in front of anything that is neither whitespace nor
`/`. -/
theorem skipC'_noop (l : List Nat) (hl : headNot isWS l)
    (hl47 : ∀ c t, l = c :: t → c ≠ 47) : skipC' l = ([], l) :=
  skipC'_ws [] l (by simp) hl hl47

theorem needV_pos : ∀ v : GValue, 1 ≤ needV v := by
  intro v
  cases v <;> simp [needV, needL]

theorem needL_pos : ∀ l : List GValue, 1 ≤ needL l := by
  intro l
  cases l <;> simp [needL]

theorem renderV_cons (v : GValue) (hw : wfV v = true) :
    ∃ hc htl, renderV v = hc :: htl ∧ isWS hc = false ∧ hc ≠ 47 ∧ hc ≠ 93 ∧
      hc ≠ 125 ∧ hc ≠ 44 ∧ hc ≠ 34 := by
  cases v with
  | tok s =>
    simp only [wfV, Bool.and_eq_true, Bool.not_eq_true',
      List.all_eq_true] at hw
    cases s with
    | nil => simp [List.isEmpty] at hw
    | cons c cs =>
      obtain ⟨ht, hc47, h34, h44, -, -, -, -, h91, h93, h123, h125, -⟩ :=
        isTokenChar_facts c (hw.2 c (List.mem_cons_self c cs))
      exact ⟨c, cs, by simp [renderV], ht, hc47, h93, h125, h44, h34⟩
  | vec l =>
    exact ⟨91, renderL l ++ [93], by simp [renderV], by decide, by decide, by decide,
      by decide, by decide, by decide⟩
  | obj l =>
    exact ⟨123, renderL l ++ [125], by simp [renderV], by decide, by decide, by decide,
      by decide, by decide, by decide⟩

theorem parseTokenM_bare (a r : List Nat) (ha : a ≠ []) (hall : ∀ c ∈ a, isTokenChar c = true)
    (hr : headNot isTokenChar r) : parseTokenM (a ++ r) = some (a, r) := by
  cases a with
  | nil => exact absurd rfl ha
  | cons c cs =>
    have hc := hall c (List.mem_cons_self c cs)
    obtain ⟨-, -, h34, -⟩ := isTokenChar_facts c hc
    have hspan : spanP isTokenChar (c :: (cs ++ r)) = (c :: cs, r) := by
      rw [← List.cons_append]
      exact spanP_exact isTokenChar (c :: cs) r hall hr
    unfold parseTokenM
    split
    · next t heq =>
      rw [List.cons_append] at heq
      exact absurd (List.head_eq_of_cons_eq heq) h34
    · simp [List.cons_append, hspan]

theorem parseTokenM_open (c : Nat) (t : List Nat) (hc : isTokenChar c = false)
    (h34 : c ≠ 34) : parseTokenM (c :: t) = none := by
  unfold parseTokenM
  split
  · next t' heq => exact absurd (List.head_eq_of_cons_eq heq) h34
  · simp [spanP_nil isTokenChar _ (show headNot isTokenChar (c :: t) from hc)]

theorem stopOk_headNot (r : List Nat) (h : stopOk r = true) : headNot isTokenChar r := by
  cases r with
  | nil => trivial
  | cons c t => simpa [stopOk] using h

theorem skipC'_noop_cons (c : Nat) (t : List Nat) (hws : isWS c = false) (h47 : c ≠ 47) :
    skipC' (c :: t) = ([], c :: t) :=
  skipC'_noop (c :: t) hws (fun d u h => by cases h; exact h47)

theorem parse_render : ∀ n : Nat,
    (∀ (v : GValue) (rest : List Nat) (fuel : Nat), needV v ≤ n → needV v ≤ fuel →
      wfV v = true → stopOk rest = true →
      parseValue fuel (renderV v ++ rest) = some (renderV v, rest)) ∧
    (∀ (l : List GValue) (rest : List Nat) (fuel : Nat) (close : Nat), needL l ≤ n →
      needL l ≤ fuel → wfL l = true → (close = 93 ∨ close = 125) →
      parseItems fuel (renderL l ++ close :: rest) close
        = some (renderL l ++ [close], rest)) := by
  intro n
  induction n with
  | zero =>
    constructor
    · intro v _ _ h _ _ _
      exact absurd h (by have := needV_pos v; omega)
    · intro l _ _ _ h _ _ _
      exact absurd h (by have := needL_pos l; omega)
  | succ n ih =>
    obtain ⟨ihV, ihL⟩ := ih
    constructor
    · intro v rest fuel hn hf hw hstop
      obtain ⟨g, rfl⟩ : ∃ g, fuel = g + 1 := ⟨fuel - 1, by have := needV_pos v; omega⟩
      cases v with
      | tok s =>
        simp only [wfV, Bool.and_eq_true, Bool.not_eq_true', List.all_eq_true] at hw
        have hne : s ≠ [] := by
          cases s with
          | nil => simp at hw
          | cons a b => simp
        simp only [renderV, parseValue]
        rw [parseTokenM_bare s rest hne hw.2 (stopOk_headNot rest hstop)]
      | vec l =>
        have hre : renderV (GValue.vec l) ++ rest = 91 :: (renderL l ++ 93 :: rest) := by
          simp [renderV]
        rw [hre]
        simp only [parseValue]
        rw [parseTokenM_open 91 _ (by decide) (by decide)]
        simp only [needV] at hn hf
        rw [ihL l rest g 93 (by omega) (by omega) (by simpa [wfV] using hw) (Or.inl rfl)]
        simp [renderV]
      | obj l =>
        have hre : renderV (GValue.obj l) ++ rest = 123 :: (renderL l ++ 125 :: rest) := by
          simp [renderV]
        rw [hre]
        simp only [parseValue]
        rw [parseTokenM_open 123 _ (by decide) (by decide)]
        simp only [needV] at hn hf
        rw [ihL l rest g 125 (by omega) (by omega) (by simpa [wfV] using hw) (Or.inr rfl)]
        simp [renderV]
    · intro l rest fuel close hn hf hw hclose
      obtain ⟨g, rfl⟩ : ∃ g, fuel = g + 1 := ⟨fuel - 1, by have := needL_pos l; omega⟩
      cases l with
      | nil =>
        rcases hclose with rfl | rfl <;>
          · simp only [renderL, List.nil_append, parseItems]
            rw [skipC'_noop_cons _ rest (by decide) (by decide)]
            simp [renderL]
      | cons v t =>
        have hwv : wfV v = true := by
          simp only [wfL, Bool.and_eq_true] at hw
          exact hw.1
        have hwt : wfL t = true := by
          simp only [wfL, Bool.and_eq_true] at hw
          exact hw.2
        obtain ⟨hc, htl, hre, hws, h47, h93, h125, h44, h34⟩ := renderV_cons v hwv
        simp only [needL] at hn hf
        cases t with
        | nil =>
          have hcCl : (hc == close) = false := by
            rcases hclose with rfl | rfl
            · exact beq_eq_false_iff_ne.mpr h93
            · exact beq_eq_false_iff_ne.mpr h125
          have hclWs : isWS close = false := by rcases hclose with rfl | rfl <;> decide
          have hcl47 : close ≠ 47 := by rcases hclose with rfl | rfl <;> decide
          have hcl44 : close ≠ 44 := by rcases hclose with rfl | rfl <;> decide
          have hclTok : stopOk (close :: rest) = true := by
            rcases hclose with rfl | rfl <;> rfl
          have hvv : parseValue g (hc :: (htl ++ close :: rest))
              = some (hc :: htl, close :: rest) := by
            rw [← List.cons_append, ← hre]
            exact ihV v (close :: rest) g (by omega) (by omega) hwv hclTok
          have hnil : parseItems g (close :: rest) close = some ([close], rest) := by
            have := ihL [] rest g close (by omega) (by omega) (by decide) hclose
            simpa [renderL] using this
          simp only [renderL, hre, List.cons_append, parseItems]
          rw [skipC'_noop_cons hc _ hws h47]
          simp only [hcCl, Bool.false_eq_true, if_false, hvv,
            skipC'_noop_cons close rest hclWs hcl47]
          split
          · next r4 heq => exact absurd (List.head_eq_of_cons_eq heq) hcl44
          · rw [hnil]
            simp
        | cons w ws =>
          have hcCl : (hc == close) = false := by
            rcases hclose with rfl | rfl
            · exact beq_eq_false_iff_ne.mpr h93
            · exact beq_eq_false_iff_ne.mpr h125
          have hww : wfV w = true := by
            simp only [wfL, Bool.and_eq_true] at hwt
            exact hwt.1
          obtain ⟨hc2, htl2, hre2, hws2, h472, -, -, -, -⟩ := renderV_cons w hww
          have hvv : parseValue g (hc :: (htl ++ 44 :: (renderL (w :: ws) ++ close :: rest)))
              = some (hc :: htl, 44 :: (renderL (w :: ws) ++ close :: rest)) := by
            rw [← List.cons_append, ← hre]
            exact ihV v _ g (by omega) (by omega) hwv (by rfl)
          have hrec : parseItems g (renderL (w :: ws) ++ close :: rest) close
              = some (renderL (w :: ws) ++ [close], rest) :=
            ihL (w :: ws) rest g close (by omega) (by omega) hwt hclose
          have hnoop2 : skipC' (renderL (w :: ws) ++ close :: rest)
              = ([], renderL (w :: ws) ++ close :: rest) := by
            obtain ⟨tl, htl3⟩ : ∃ tl, renderL (w :: ws) = renderV w ++ tl := by
              cases ws with
              | nil => exact ⟨[], by simp [renderL]⟩
              | cons a b => exact ⟨44 :: renderL (a :: b), by simp [renderL]⟩
            rw [htl3, hre2]
            simp only [List.cons_append, List.append_assoc]
            exact skipC'_noop_cons hc2 _ hws2 h472
          have hgoal : renderL (v :: w :: ws) ++ close :: rest
              = hc :: (htl ++ 44 :: (renderL (w :: ws) ++ close :: rest)) := by
            simp [renderL, hre]
          rw [hgoal]
          simp only [parseItems]
          rw [skipC'_noop_cons hc _ hws h47]
          simp only [hcCl, Bool.false_eq_true, if_false, hvv,
            skipC'_noop_cons 44 _ (by decide) (by decide), hnoop2, hrec]
          simp [renderL, hre]

theorem need_le_render : ∀ n : Nat,
    (∀ v : GValue, needV v ≤ n → needV v ≤ (renderV v).length + 1) ∧
    (∀ l : List GValue, needL l ≤ n → needL l ≤ (renderL l).length + 2) := by
  intro n
  induction n with
  | zero =>
    constructor
    · intro v h
      have := needV_pos v
      omega
    · intro l h
      have := needL_pos l
      omega
  | succ n ih =>
    obtain ⟨ihV, ihL⟩ := ih
    constructor
    · intro v h
      cases v with
      | tok s => simp only [needV, renderV]; omega
      | vec l =>
        have h1 : needL l ≤ n := by
          simp only [needV] at h
          have := needL_pos l
          omega
        have := ihL l h1
        simp only [needV, renderV, List.length_cons, List.length_append]
        omega
      | obj l =>
        have h1 : needL l ≤ n := by
          simp only [needV] at h
          have := needL_pos l
          omega
        have := ihL l h1
        simp only [needV, renderV, List.length_cons, List.length_append]
        omega
    · intro l h
      cases l with
      | nil => simp [needL, renderL]
      | cons v t =>
        have hv : needV v ≤ n := by
          simp only [needL] at h
          omega
        have ht : needL t ≤ n := by
          simp only [needL] at h
          omega
        have h1 := ihV v hv
        have h2 := ihL t ht
        cases t with
        | nil =>
          have := needL_pos ([] : List GValue)
          simp only [needL, renderL] at *
          omega
        | cons a b =>
          simp only [needL, renderL, List.length_append, List.length_cons] at *
          omega

/-- The value sub-pattern consumes exactly a well-formed rendered value when
run with the fuel the extractor supplies. -/
theorem parseValue_render_auto (v : GValue) (rest : List Nat) (hw : wfV v = true)
    (hstop : stopOk rest = true) :
    parseValue ((renderV v ++ rest).length + 1) (renderV v ++ rest)
      = some (renderV v, rest) := by
  have hb := (need_le_render (needV v)).1 v le_rfl
  exact (parse_render (needV v)).1 v rest _ le_rfl
    (by simp only [List.length_append]; omega) hw hstop

theorem parseWord_exact (a r : List Nat) (ha : a ≠ [])
    (hall : ∀ c ∈ a, isWordChar c = true) (hr : headNot isWordChar r) :
    parseWord (a ++ r) = some (a, r) := by
  unfold parseWord
  rw [spanP_exact isWordChar a r hall hr]
  simp [ha]

theorem skipC'_nil : skipC' [] = ([], []) := rfl

/-- `FUNTIONPARAMETERREGEX` consumes exactly one rendered parameter (plain
word-run type and name, the type not beginning with the letters `const`),
capturing an empty default when the parameter declares none and the full
rendered value when it does. -/
theorem parseParamCore_render (ty nm : List Nat) (d : Option GValue) (rest : List Nat)
    (ht1 : ty ≠ []) (ht2 : ∀ c ∈ ty, isWordChar c = true)
    (hn1 : nm ≠ []) (hn2 : ∀ c ∈ nm, isWordChar c = true)
    (hd : match d with | none => True | some v => wfV v = true)
    (hrest : rest = [] ∨ ∃ r', rest = 44 :: r')
    (hconst : dropLit (s2l "const") (renderParam ty nm d ++ rest) = none) :
    parseParamCore (renderParam ty nm d ++ rest)
      = some ({ sType := ty, sName := nm, sDefaultValue := renderDV d }, rest) := by
  obtain ⟨c0, cs0, rfl⟩ : ∃ c0 cs0, ty = c0 :: cs0 := by
    cases ty with
    | nil => exact absurd rfl ht1
    | cons a b => exact ⟨a, b, rfl⟩
  obtain ⟨d0, ds0, rfl⟩ : ∃ d0 ds0, nm = d0 :: ds0 := by
    cases nm with
    | nil => exact absurd rfl hn1
    | cons a b => exact ⟨a, b, rfl⟩
  obtain ⟨hws0, -, h470, -⟩ := isWordChar_facts c0 (ht2 c0 (List.mem_cons_self c0 cs0))
  obtain ⟨hwsd, -, h47d, -⟩ := isWordChar_facts d0 (hn2 d0 (List.mem_cons_self d0 ds0))
  have hrestWs : headNot isWS rest := by
    rcases hrest with rfl | ⟨r', rfl⟩
    · trivial
    · show isWS 44 = false
      decide
  have hrest47 : ∀ c t', rest = c :: t' → c ≠ 47 := by
    rcases hrest with rfl | ⟨r', rfl⟩
    · intro c t' h
      cases h
    · intro c t' h
      cases h
      decide
  have hrestWord : headNot isWordChar rest := by
    rcases hrest with rfl | ⟨r', rfl⟩
    · trivial
    · show isWordChar 44 = false
      decide
  have hrestStop : stopOk rest = true := by
    rcases hrest with rfl | ⟨r', rfl⟩
    · rfl
    · rfl
  have hskipRest : skipC' rest = ([], rest) := by
    rcases hrest with rfl | ⟨r', rfl⟩
    · rfl
    · exact skipC'_noop_cons 44 r' (by decide) (by decide)
  cases d with
  | none =>
    have e1 : renderParam (c0 :: cs0) (d0 :: ds0) none ++ rest
        = c0 :: (cs0 ++ 32 :: (d0 :: (ds0 ++ rest))) := by
      simp [renderParam]
    rw [e1] at hconst ⊢
    have hno : skipC' (c0 :: (cs0 ++ 32 :: (d0 :: (ds0 ++ rest))))
        = ([], c0 :: (cs0 ++ 32 :: (d0 :: (ds0 ++ rest)))) :=
      skipC'_noop_cons c0 _ hws0 h470
    have hword1 : parseWord (c0 :: (cs0 ++ 32 :: (d0 :: (ds0 ++ rest))))
        = some (c0 :: cs0, 32 :: (d0 :: (ds0 ++ rest))) := by
      rw [← List.cons_append]
      exact parseWord_exact _ _ (by simp) ht2 (show isWordChar 32 = false by decide)
    have hskip2 : skipC' (32 :: (d0 :: (ds0 ++ rest))) = ([32], d0 :: (ds0 ++ rest)) := by
      rw [show (32 : Nat) :: (d0 :: (ds0 ++ rest)) = [32] ++ (d0 :: (ds0 ++ rest)) from rfl]
      exact skipC'_ws [32] _ (by decide) hwsd (fun c t h => by cases h; exact h47d)
    have hword2 : parseWord (d0 :: (ds0 ++ rest)) = some (d0 :: ds0, rest) := by
      rw [← List.cons_append]
      exact parseWord_exact _ _ (by simp) hn2 hrestWord
    unfold parseParamCore
    simp only [hno, hconst, hword1, hskip2, hword2, hskipRest]
    rcases hrest with rfl | ⟨r', rfl⟩ <;> simp [renderDV]
  | some v =>
    have hdv : wfV v = true := hd
    obtain ⟨vc, vtl, hvre, hvws, hv47, -, -, -, -⟩ := renderV_cons v hdv
    have e1 : renderParam (c0 :: cs0) (d0 :: ds0) (some v) ++ rest
        = c0 :: (cs0 ++ 32 :: (d0 :: (ds0 ++ 32 :: 61 :: 32 :: (renderV v ++ rest)))) := by
      simp [renderParam]
    rw [e1] at hconst ⊢
    have hno : skipC' (c0 :: (cs0 ++ 32 :: (d0 :: (ds0 ++ 32 :: 61 :: 32 :: (renderV v ++ rest)))))
        = ([], c0 :: (cs0 ++ 32 :: (d0 :: (ds0 ++ 32 :: 61 :: 32 :: (renderV v ++ rest))))) :=
      skipC'_noop_cons c0 _ hws0 h470
    have hword1 : parseWord (c0 :: (cs0 ++ 32 :: (d0 :: (ds0 ++ 32 :: 61 :: 32 :: (renderV v ++ rest)))))
        = some (c0 :: cs0, 32 :: (d0 :: (ds0 ++ 32 :: 61 :: 32 :: (renderV v ++ rest)))) := by
      rw [← List.cons_append]
      exact parseWord_exact _ _ (by simp) ht2 (show isWordChar 32 = false by decide)
    have hskip2 : skipC' (32 :: (d0 :: (ds0 ++ 32 :: 61 :: 32 :: (renderV v ++ rest))))
        = ([32], d0 :: (ds0 ++ 32 :: 61 :: 32 :: (renderV v ++ rest))) := by
      rw [show (32 : Nat) :: (d0 :: (ds0 ++ 32 :: 61 :: 32 :: (renderV v ++ rest)))
          = [32] ++ (d0 :: (ds0 ++ 32 :: 61 :: 32 :: (renderV v ++ rest))) from rfl]
      exact skipC'_ws [32] _ (by decide) hwsd (fun c t h => by cases h; exact h47d)
    have hword2 : parseWord (d0 :: (ds0 ++ 32 :: 61 :: 32 :: (renderV v ++ rest)))
        = some (d0 :: ds0, 32 :: 61 :: 32 :: (renderV v ++ rest)) := by
      rw [← List.cons_append]
      exact parseWord_exact _ _ (by simp) hn2 (show isWordChar 32 = false by decide)
    have hskip3 : skipC' (32 :: 61 :: 32 :: (renderV v ++ rest))
        = ([32], 61 :: 32 :: (renderV v ++ rest)) := by
      rw [show (32 : Nat) :: 61 :: 32 :: (renderV v ++ rest)
          = [32] ++ (61 :: 32 :: (renderV v ++ rest)) from rfl]
      exact skipC'_ws [32] _ (by decide) (show isWS 61 = false by decide)
        (fun c t h => by cases h; decide)
    have hskip4 : skipC' (32 :: (renderV v ++ rest)) = ([32], renderV v ++ rest) := by
      rw [show (32 : Nat) :: (renderV v ++ rest) = [32] ++ (renderV v ++ rest) from rfl]
      refine skipC'_ws [32] _ (by decide) ?_ ?_
      · rw [hvre, List.cons_append]
        exact hvws
      · rw [hvre, List.cons_append]
        exact fun c t h => by cases h; exact hv47
    have hval : parseValue ((renderV v ++ rest).length + 1) (renderV v ++ rest)
        = some (renderV v, rest) := parseValue_render_auto v rest hdv hrestStop
    unfold parseParamCore
    simp only [hno, hconst, hword1, hskip2, hword2, hskip3, hskip4, hval, hskipRest]
    rcases hrest with rfl | ⟨r', rfl⟩ <;> simp [renderDV]

/-! ### The parameter sub-extractor on rendered parameter lists -/

theorem dropLit_none_append (pat : List Nat) :
    ∀ l X, (∀ c ∈ pat, c ≠ 32) → dropLit pat (l ++ [32]) = none →
      dropLit pat (l ++ 32 :: X) = none := by
  induction pat with
  | nil => intro l X _ h; simp [dropLit] at h
  | cons p ps ih =>
    intro l X hp h
    cases l with
    | nil =>
      have hp32 : (p == 32) = false :=
        beq_eq_false_iff_ne.mpr (hp p (List.mem_cons_self p ps))
      simpa [dropLit, hp32] using h
    | cons a l' =>
      simp only [List.cons_append, dropLit] at h ⊢
      by_cases hpa : (p == a) = true
      · rw [hpa] at h ⊢
        simp only [if_true] at h ⊢
        exact ih l' X (fun c hc => hp c (List.mem_cons_of_mem p hc)) h
      · rw [Bool.not_eq_true] at hpa
        rw [hpa] at h ⊢
        simp at h ⊢

theorem renderParam_const_none (ty nm : List Nat) (d : Option GValue) (rest : List Nat)
    (h : (dropLit (s2l "const") (ty ++ [32])).isNone = true) :
    dropLit (s2l "const") (renderParam ty nm d ++ rest) = none := by
  have h' : dropLit (s2l "const") (ty ++ [32]) = none := by
    cases hh : dropLit (s2l "const") (ty ++ [32]) with
    | none => rfl
    | some r => rw [hh] at h; simp at h
  have h2 := dropLit_none_append (s2l "const") ty
    (nm ++ ((match d with | none => [] | some v => 32 :: 61 :: 32 :: renderV v) ++ rest))
    (by decide) h'
  have e : renderParam ty nm d ++ rest
      = ty ++ 32 :: (nm ++ ((match d with | none => [] | some v => 32 :: 61 :: 32 :: renderV v) ++ rest)) := by
    simp [renderParam]
  rw [e]
  exact h2

/-- `FUNTIONPARAMETERREGEX` cannot match at an offset holding a unit that is
not whitespace, not `/`, not a word character, and not the letter `c`. -/
theorem parseParamCore_noWord (c : Nat) (r : List Nat) (hws : isWS c = false)
    (h47 : c ≠ 47) (hword : isWordChar c = false) (h99 : c ≠ 99) :
    parseParamCore (c :: r) = none := by
  have hno := skipC'_noop_cons c r hws h47
  have hdrop : dropLit (s2l "const") (c :: r) = none := by
    show dropLit (99 :: [111, 110, 115, 116]) (c :: r) = none
    simp only [dropLit, beq_eq_false_iff_ne.mpr (Ne.symm h99)]
    simp
  have hword' : parseWord (c :: r) = none := by
    unfold parseWord
    rw [spanP_nil isWordChar _ (show headNot isWordChar (c :: r) from hword)]
    simp
  unfold parseParamCore
  simp only [hno, hdrop, hword']

theorem parseParamCore_nil : parseParamCore [] = none := rfl

theorem scanParamsG_nil : ∀ fuel, scanParamsG fuel [] = [] := by
  intro fuel
  cases fuel with
  | zero => rfl
  | succ g => rfl

theorem wfParamB_facts (p : List Nat × List Nat × Option GValue) (h : wfParamB p = true) :
    p.1 ≠ [] ∧ (∀ c ∈ p.1, isWordChar c = true) ∧ p.2.1 ≠ [] ∧
    (∀ c ∈ p.2.1, isWordChar c = true) ∧
    (match p.2.2 with | none => True | some v => wfV v = true) ∧
    (dropLit (s2l "const") (p.1 ++ [32])).isNone = true := by
  simp only [wfParamB, Bool.and_eq_true, Bool.not_eq_true',
    List.all_eq_true] at h
  obtain ⟨⟨⟨⟨⟨h1, h2⟩, h3⟩, h4⟩, h5⟩, h6⟩ := h
  refine ⟨?_, h2, ?_, h4, ?_, h6⟩
  · intro heq
    rw [heq] at h1
    simp at h1
  · intro heq
    rw [heq] at h3
    simp at h3
  · cases hd : p.2.2 with
    | none => trivial
    | some v => rw [hd] at h5; exact h5

theorem renderParam_length (ty nm : List Nat) (d : Option GValue) :
    1 ≤ (renderParam ty nm d).length := by
  simp [renderParam]
  omega

theorem scanParamsG_render :
    ∀ ps fuel, (∀ p ∈ ps, wfParamB p = true) → (renderParams ps).length + 1 ≤ fuel →
      scanParamsG fuel (renderParams ps) = ps.map paramRecordOf := by
  intro ps
  induction ps with
  | nil =>
    intro fuel _ hf
    simpa [renderParams] using scanParamsG_nil fuel
  | cons p ps ih =>
    intro fuel hw hf
    obtain ⟨h1, h2, h3, h4, h5, h6⟩ := wfParamB_facts p (hw p (List.mem_cons_self p ps))
    obtain ⟨g, rfl⟩ : ∃ g, fuel = g + 1 := ⟨fuel - 1, by omega⟩
    cases ps with
    | nil =>
      have hcore := parseParamCore_render p.1 p.2.1 p.2.2 [] h1 h2 h3 h4 h5 (Or.inl rfl)
        (renderParam_const_none _ _ _ _ h6)
      simp only [renderParams, scanParamsG]
      rw [show renderParam p.1 p.2.1 p.2.2 = renderParam p.1 p.2.1 p.2.2 ++ [] by simp,
        hcore]
      simp [scanParamsG_nil, paramRecordOf]
    | cons q qs =>
      have hcore := parseParamCore_render p.1 p.2.1 p.2.2 (44 :: renderParams (q :: qs))
        h1 h2 h3 h4 h5 (Or.inr ⟨_, rfl⟩) (renderParam_const_none _ _ _ _ h6)
      have hlen : (renderParams (p :: q :: qs)).length
          = (renderParam p.1 p.2.1 p.2.2).length + 1 + (renderParams (q :: qs)).length := by
        simp [renderParams]
        omega
      have hrp := renderParam_length p.1 p.2.1 p.2.2
      obtain ⟨g', rfl⟩ : ∃ g', g = g' + 1 := ⟨g - 1, by omega⟩
      simp only [renderParams, scanParamsG]
      rw [hcore]
      have hcomma : parseParamCore (44 :: renderParams (q :: qs)) = none :=
        parseParamCore_noWord 44 _ (by decide) (by decide) (by decide) (by decide)
      simp only [scanParamsG, hcomma]
      rw [ih g' (fun x hx => hw x (List.mem_cons_of_mem p hx)) (by
        rw [hlen] at hf
        omega)]
      simp [paramRecordOf]

/-- Claim C6: for every rendered function parameter list (word-run types and
names, types not spelling `const`, well-formed optional defaults), the
parameter sub-extractor used by `CreateNWScriptStructureA` produces exactly
one record per parameter in order — a parameter with no default value is
never skipped and never an error, its extracted `sDefaultValue` is the empty
string; a parameter with a default carries its full rendered value. -/
theorem claim6_no_default_yields_empty_string
    (ps : List (List Nat × List Nat × Option GValue))
    (h : ∀ p ∈ ps, wfParamB p = true) :
    paramMatches (renderParams ps) = ps.map paramRecordOf :=
  scanParamsG_render ps _ h le_rfl

theorem claim6_witness :
    paramMatches (renderParams
      [(s2l "int", s2l "a", none),
       (s2l "float", s2l "b", some (GValue.tok (s2l "2.0"))),
       (s2l "object", s2l "c", none)])
      = [(s2l "int", s2l "a", (none : Option GValue)),
         (s2l "float", s2l "b", some (GValue.tok (s2l "2.0"))),
         (s2l "object", s2l "c", none)].map paramRecordOf :=
  claim6_no_default_yields_empty_string _ (by decide)

/-- Claim C8: a parameter whose default value is a bracket-delimited literal
with nested commas and nested brackets is extracted with `sDefaultValue`
equal to the full nested literal text — the recursive `tokenVector`/`object`
sub-patterns consume balanced nesting, not a prefix cut at the first inner
comma or closing bracket. -/
theorem claim8_nested_default_extracted_whole (ty nm : List Nat) (v : GValue)
    (h : wfParamB (ty, nm, some v) = true) :
    paramMatches (renderParam ty nm (some v))
      = [{ sType := ty, sName := nm, sDefaultValue := renderV v }] := by
  have := scanParamsG_render [(ty, nm, some v)] ((renderParams [(ty, nm, some v)]).length + 1)
    (by intro p hp; rw [List.mem_singleton] at hp; rw [hp]; exact h) le_rfl
  simpa [renderParams, paramRecordOf, renderDV, paramMatches] using this

theorem claim8_witness :
    paramMatches (renderParam (s2l "vector") (s2l "v")
      (some (GValue.vec [GValue.vec [GValue.tok (s2l "1.0"), GValue.tok (s2l "2.0")],
                         GValue.vec [GValue.tok (s2l "3.0"), GValue.tok (s2l "4.0")]])))
      = [{ sType := s2l "vector", sName := s2l "v",
           sDefaultValue := renderV
             (GValue.vec [GValue.vec [GValue.tok (s2l "1.0"), GValue.tok (s2l "2.0")],
                          GValue.vec [GValue.tok (s2l "3.0"), GValue.tok (s2l "4.0")]]) }] :=
  claim8_nested_default_extracted_whole _ _ _ (by decide)

/-! ### The function-declaration pattern on rendered declarations -/

theorem parseAbutComments_noop (fuel : Nat) (l : List Nat)
    (h : ∀ c t, l = c :: t → c ≠ 47) : parseAbutComments fuel l = ([], l) := by
  cases fuel with
  | zero => rfl
  | succ g =>
    unfold parseAbutComments
    split
    · next x t => exact absurd rfl (h 47 (42 :: t) rfl)
    · rfl

theorem parseParamsString_rparen (fuel : Nat) (r : List Nat) :
    parseParamsString fuel (41 :: r) = ([], 41 :: r) := by
  cases fuel with
  | zero => rfl
  | succ g =>
    unfold parseParamsString
    rw [parseParamCore_noWord 41 r (by decide) (by decide) (by decide) (by decide)]

theorem tryFunctionDecl_unanchored (l : List Nat) : tryFunctionDecl false l = none := rfl

theorem scanAnchored_false_nil {α : Type} (tryAt : Bool → List Nat → Option (α × List Nat))
    (hanch : ∀ l, tryAt false l = none) :
    ∀ fuel l, (∀ c ∈ l, c ≠ 10) → scanAnchored tryAt fuel false l = [] := by
  intro fuel
  induction fuel with
  | zero => intro l _; rfl
  | succ g ih =>
    intro l hl
    simp only [scanAnchored]
    rw [hanch l]
    cases l with
    | nil => rfl
    | cons c t =>
      show scanAnchored tryAt g (c == 10) t = []
      rw [show (c == 10) = false from
        beq_eq_false_iff_ne.mpr (hl c (List.mem_cons_self c t))]
      exact ih t (fun d hd => hl d (List.mem_cons_of_mem c hd))

/-- `FUNCTIONDECLARATIONREGEX` at a line start on `type name()` followed by
a suffix: the whole match succeeds exactly when, after comment-and-space
skipping, the suffix begins with the terminating `;`. -/
theorem tryFunctionDecl_render (ty nm S : List Nat)
    (ht1 : ty ≠ []) (ht2 : ∀ c ∈ ty, isWordChar c = true)
    (hn1 : nm ≠ []) (hn2 : ∀ c ∈ nm, isWordChar c = true)
    (hkw : startsWithKw (ty ++ 32 :: (nm ++ 40 :: 41 :: S)) = false) :
    tryFunctionDecl true (ty ++ 32 :: (nm ++ 40 :: 41 :: S))
      = match (skipC' S).2 with
        | 59 :: r5 => some ({ fType := ty, fName := nm, parametersString := [] }, r5)
        | _ => none := by
  obtain ⟨c0, cs0, rfl⟩ : ∃ c0 cs0, ty = c0 :: cs0 := by
    cases ty with
    | nil => exact absurd rfl ht1
    | cons a b => exact ⟨a, b, rfl⟩
  obtain ⟨d0, ds0, rfl⟩ : ∃ d0 ds0, nm = d0 :: ds0 := by
    cases nm with
    | nil => exact absurd rfl hn1
    | cons a b => exact ⟨a, b, rfl⟩
  obtain ⟨hws0, -, h470, -⟩ := isWordChar_facts c0 (ht2 c0 (List.mem_cons_self c0 cs0))
  obtain ⟨hwsd, -, h47d, -⟩ := isWordChar_facts d0 (hn2 d0 (List.mem_cons_self d0 ds0))
  have e1 : (c0 :: cs0) ++ 32 :: ((d0 :: ds0) ++ 40 :: 41 :: S)
      = c0 :: (cs0 ++ 32 :: (d0 :: (ds0 ++ 40 :: 41 :: S))) := by
    simp
  rw [e1] at hkw ⊢
  have hcm : ∀ fuel, parseAbutComments fuel (c0 :: (cs0 ++ 32 :: (d0 :: (ds0 ++ 40 :: 41 :: S))))
      = ([], c0 :: (cs0 ++ 32 :: (d0 :: (ds0 ++ 40 :: 41 :: S)))) :=
    fun fuel => parseAbutComments_noop fuel _ (fun c t h => by cases h; exact h470)
  have hword1 : parseWord (c0 :: (cs0 ++ 32 :: (d0 :: (ds0 ++ 40 :: 41 :: S))))
      = some (c0 :: cs0, 32 :: (d0 :: (ds0 ++ 40 :: 41 :: S))) := by
    rw [← List.cons_append]
    exact parseWord_exact _ _ (by simp) ht2 (show isWordChar 32 = false by decide)
  have hskip1 : skipC' (32 :: (d0 :: (ds0 ++ 40 :: 41 :: S)))
      = ([32], d0 :: (ds0 ++ 40 :: 41 :: S)) := by
    rw [show (32 : Nat) :: (d0 :: (ds0 ++ 40 :: 41 :: S))
        = [32] ++ (d0 :: (ds0 ++ 40 :: 41 :: S)) from rfl]
    exact skipC'_ws [32] _ (by decide) hwsd (fun c t h => by cases h; exact h47d)
  have hword2 : parseWord (d0 :: (ds0 ++ 40 :: 41 :: S))
      = some (d0 :: ds0, 40 :: 41 :: S) := by
    rw [← List.cons_append]
    exact parseWord_exact _ _ (by simp) hn2 (show isWordChar 40 = false by decide)
  have hskip2 : skipC' (40 :: 41 :: S) = ([], 40 :: 41 :: S) :=
    skipC'_noop_cons 40 _ (by decide) (by decide)
  unfold tryFunctionDecl
  simp only [Bool.not_true, Bool.false_eq_true, if_false, hcm, hkw, hword1, hskip1,
    hword2, hskip2, parseParamsString_rparen]

theorem scanAnchored_succ {α : Type} (tryAt : Bool → List Nat → Option (α × List Nat))
    (fuel : Nat) (atLS : Bool) (l : List Nat) :
    scanAnchored tryAt (fuel + 1) atLS l
      = match tryAt atLS l with
        | some (a, rest) => a :: scanAnchored tryAt fuel false rest
        | none =>
          match l with
          | [] => []
          | c :: t => scanAnchored tryAt fuel (c == 10) t := rfl

/-- Claim C7: a function whose header `type name()` is followed by a
brace-delimited body instead of the terminating semicolon produces zero
function records — only prototype-style declarations ending in `;` are
recognized, which the second conjunct witnesses on the same header. -/
theorem claim7_function_body_never_matches (ty nm : List Nat)
    (ht1 : ty ≠ []) (ht2 : ∀ c ∈ ty, isWordChar c = true)
    (hn1 : nm ≠ []) (hn2 : ∀ c ∈ nm, isWordChar c = true)
    (hkw1 : startsWithKw (ty ++ 32 :: (nm ++ 40 :: 41 :: s2l " { return 0; }")) = false)
    (hkw2 : startsWithKw (ty ++ 32 :: (nm ++ 40 :: 41 :: s2l ";")) = false) :
    functionMatches (ty ++ 32 :: (nm ++ 40 :: 41 :: s2l " { return 0; }")) = [] ∧
    functionMatches (ty ++ 32 :: (nm ++ 40 :: 41 :: s2l ";"))
      = [{ fType := ty, fName := nm, parametersString := [] }] := by
  have h1 : tryFunctionDecl true
      (ty ++ 32 :: (nm ++ 40 :: 41 :: s2l " { return 0; }")) = none := by
    rw [tryFunctionDecl_render _ _ _ ht1 ht2 hn1 hn2 hkw1]
    rfl
  have h2 : tryFunctionDecl true (ty ++ 32 :: (nm ++ 40 :: 41 :: s2l ";"))
      = some ({ fType := ty, fName := nm, parametersString := [] }, []) := by
    rw [tryFunctionDecl_render _ _ _ ht1 ht2 hn1 hn2 hkw2]
    rfl
  obtain ⟨c0, cs0, rfl⟩ : ∃ c0 cs0, ty = c0 :: cs0 := by
    cases ty with
    | nil => exact absurd rfl ht1
    | cons a b => exact ⟨a, b, rfl⟩
  obtain ⟨d0, ds0, rfl⟩ : ∃ d0 ds0, nm = d0 :: ds0 := by
    cases nm with
    | nil => exact absurd rfl hn1
    | cons a b => exact ⟨a, b, rfl⟩
  have hc0ne10 : c0 ≠ 10 :=
    (isWordChar_facts c0 (ht2 c0 (List.mem_cons_self c0 cs0))).2.2.2.2.2.2.2.2.2
  have hno10 : ∀ S : List Nat, (∀ c ∈ S, c ≠ 10) →
      ∀ c ∈ cs0 ++ 32 :: (d0 :: (ds0 ++ 40 :: 41 :: S)), c ≠ 10 := by
    intro S hS c hc
    simp only [List.mem_append, List.mem_cons] at hc
    rcases hc with h | h | h | h | h | h | h
    · exact (isWordChar_facts c (ht2 c (List.mem_cons_of_mem c0 h))).2.2.2.2.2.2.2.2.2
    · omega
    · rw [h]
      exact (isWordChar_facts d0 (hn2 d0 (List.mem_cons_self d0 ds0))).2.2.2.2.2.2.2.2.2
    · exact (isWordChar_facts c (hn2 c (List.mem_cons_of_mem d0 h))).2.2.2.2.2.2.2.2.2
    · omega
    · omega
    · exact hS c h
  have e1 : ∀ S : List Nat, (c0 :: cs0) ++ 32 :: ((d0 :: ds0) ++ 40 :: 41 :: S)
      = c0 :: (cs0 ++ 32 :: (d0 :: (ds0 ++ 40 :: 41 :: S))) := by
    intro S
    simp
  constructor
  · rw [e1] at h1
    unfold functionMatches
    rw [e1, scanAnchored_succ, h1]
    show scanAnchored tryFunctionDecl _ (c0 == 10) _ = []
    rw [show (c0 == 10) = false from beq_eq_false_iff_ne.mpr hc0ne10]
    exact scanAnchored_false_nil tryFunctionDecl tryFunctionDecl_unanchored _ _
      (hno10 (s2l " { return 0; }") (by decide))
  · rw [e1] at h2
    unfold functionMatches
    rw [e1, scanAnchored_succ, h2]
    simp only [scanAnchored_false_nil tryFunctionDecl tryFunctionDecl_unanchored _ []
      (fun c hc => absurd hc (List.not_mem_nil c))]

theorem claim7_witness :
    functionMatches (s2l "int" ++ 32 :: (s2l "f" ++ 40 :: 41 :: s2l " { return 0; }")) = [] ∧
    functionMatches (s2l "int" ++ 32 :: (s2l "f" ++ 40 :: 41 :: s2l ";"))
      = [{ fType := s2l "int", fName := s2l "f", parametersString := [] }] :=
  claim7_function_body_never_matches (s2l "int") (s2l "f") (by decide) (by decide)
    (by decide) (by decide) (by decide) (by decide)

/-- Claim C9, counterexample: a buffer that starts with the UTF-16 LE
byte-order mark and encodes `int f();` takes the wide path, but the wide
path keeps the BOM as the first character of the first line, so it extracts
nothing, while the narrow path on the identical textual content extracts the
function — the two member sets differ. -/
theorem claim9_counterexample :
    ParseFile true (255 :: 254 :: utf16le (s2l "int f();")) Encoding.WideLE {} true {} ∧
    (CreateNWScriptStructureW (255 :: 254 :: utf16le (s2l "int f();")) {}).Members = [] ∧
    (CreateNWScriptStructureA (s2l "int f();") {}).Members
      = [{ mID := .Function, sType := s2l "int", sName := s2l "f" }] := by
  refine ⟨⟨rfl, by decide, by decide, by decide, by decide, by decide⟩, by decide, by decide⟩

/-- Claim C9, amended: for a buffer with a UTF-16 LE byte-order mark the
dispatch runs the wide extraction path, and the wide path produces exactly
what the narrow extraction algorithm yields on the 16-bit units decoded from
the raw bytes — a unit sequence that still begins with the byte-order mark,
so the member set agrees with a narrow run on the bare content only when no
declaration starts at the very beginning of the buffer. -/
theorem claim9_amended_wide_path_is_narrow_on_decoded_units :
    (∀ (contents : List Nat) (init : ScriptParseResults),
      parseFilePre true contents Encoding.WideLE init
        = CreateNWScriptStructureW contents init) ∧
    (∀ (bytes : List Nat) (r : ScriptParseResults),
      CreateNWScriptStructureW bytes r
        = CreateNWScriptStructureA (decodeWide bytes) r) :=
  ⟨fun _ _ => rfl, fun _ _ => rfl⟩
